import Mathlib

/-!
Verification of the rfs repository's natural-language specification against a
shallow Lean embedding of its source.

Embedded source files:
  * src/store/zdb.rs   — the zdb (network blob DB) store backend
  * src/meta/types.rs  — the legacy flist artifact (directory record / ACI) reader
  * docker2fl/src/main.rs — the docker→flist converter CLI driver
-/

namespace Rfs

/-! ## zdb store (src/store/zdb.rs) -/

/-- The store-layer error taxonomy relevant to `ZdbStore::get`
(`Error::KeyNotFound`, `Error::InvalidBlob`, and transport/other errors carried
with a context message, as produced by `.context(...)`). -/
inductive StoreError where
  | KeyNotFound : StoreError
  | InvalidBlob : StoreError
  | Transport : String → StoreError
deriving DecidableEq, Repr

/-- `ZdbStore::get` (src/store/zdb.rs:113-124), with its two effectful steps
made explicit inputs:
  * `conn` — the outcome of `self.pool.get().await` (`.error e` when acquiring
    a connection fails);
  * `fetch` — the outcome of `con.get(key).await`, a redis GET returning
    `Option<Vec<u8>>` (`.error e` on a transport failure, `.ok none` when the
    backend holds no value for the key, `.ok (some bytes)` otherwise).
A blob is a byte list. -/
def ZdbStore.get (conn : Except String Unit)
    (fetch : Except String (Option (List Nat))) : Except StoreError (List Nat) :=
  match conn with
  | .error e => .error (.Transport e)
  | .ok _ =>
    match fetch with
    | .error e => .error (.Transport e)
    | .ok none => .error .KeyNotFound
    | .ok (some result) =>
      if result.isEmpty then .error .InvalidBlob
      else .ok result

/-- A redis command under construction (`bb8_redis::redis::Cmd`): the command
name followed by its arguments, as assembled by `cmd(..)` / `.arg(..)`. -/
structure Cmd where
  args : List String
deriving DecidableEq, Repr

/-- `cmd(name)` — start a command. -/
def cmd (name : String) : Cmd := ⟨[name]⟩

/-- `Cmd::arg` — append one argument. -/
def Cmd.arg (c : Cmd) (a : String) : Cmd := ⟨c.args ++ [a]⟩

/-- The `WithNamespace` connection customizer (src/store/zdb.rs:16-20). -/
structure WithNamespace where
  «namespace» : Option String
  password : Option String
deriving DecidableEq, Repr

/-- `WithNamespace::on_acquire` (src/store/zdb.rs:24-41), abstracted to the
command it issues on the freshly acquired connection: `some c` when it sends
command `c`, `none` when it sends nothing (the `_ => Ok(())` arm). -/
def WithNamespace.on_acquire (w : WithNamespace) : Option Cmd :=
  match w.«namespace» with
  | some ns =>
    if ns ≠ "default" then
      let c := cmd "SELECT"
      let c := c.arg ns
      let c := match w.password with
        | some password => c.arg password
        | none => c
      some c
    else none
  | none => none

/-- `redis::ConnectionAddr` (the two variants used by zdb). -/
inductive ConnectionAddr where
  | Tcp : String → Nat → ConnectionAddr
  | Unix : String → ConnectionAddr
deriving DecidableEq, Repr

/-- `redis::RedisConnectionInfo` (fields set by `get_connection_info`). -/
structure RedisConnectionInfo where
  db : Int
  username : Option String
  password : Option String
deriving DecidableEq, Repr

/-- `redis::ConnectionInfo`. -/
structure ConnectionInfo where
  addr : ConnectionAddr
  redis : RedisConnectionInfo
deriving DecidableEq, Repr

/-- The components of a parsed `url::Url` that `get_connection_info` reads:
`u.host()`, `u.port()`, `u.path()`, `u.username()`, `u.password()`. -/
structure UrlParts where
  host : Option String
  port : Option Nat
  path : String
  username : String
  password : Option String
deriving DecidableEq, Repr

/-- Split a character list on every occurrence of `sep` (the semantics of
splitting a string on a one-character separator: splitting the empty list
yields one empty piece). -/
def splitChar (sep : Char) : List Char → List (List Char)
  | [] => [[]]
  | c :: rest =>
    let r := splitChar sep rest
    if c = sep then [] :: r
    else
      match r with
      | s :: ss => (c :: s) :: ss
      | [] => [[c]]

/-- `url::Url::path_segments`: `some` of the `/`-separated segments of the
path with its leading `/` removed when the path starts with `/`, `none`
otherwise (the URL cannot be a base). -/
def UrlParts.path_segments (u : UrlParts) : Option (List String) :=
  match u.path.toList with
  | '/' :: rest => some ((splitChar '/' rest).map (fun s => String.mk s))
  | _ => none

/-- `get_connection_info` (src/store/zdb.rs:46-75) on an already-parsed URL:
with a host, a TCP address at the URL's port (default 9900) and, as namespace,
the last path segment when there is one; with no host, a Unix-socket address
at the URL's path and no namespace. The username is carried over when
non-empty, the password verbatim, and the redis db is 0. -/
def get_connection_info (u : UrlParts) : ConnectionInfo × Option String :=
  let (address, «namespace») :=
    match u.host with
    | some host =>
      let addr := ConnectionAddr.Tcp host (u.port.getD 9900)
      let ns : Option String := u.path_segments.bind (fun s => s.getLast?)
      (addr, ns)
    | none => (ConnectionAddr.Unix u.path, none)
  (⟨address,
    { db := 0
      username := if u.username = "" then none else some u.username
      password := u.password }⟩,
   «namespace»)

/-- `url::Url::parse "zdb://hub.grid.tf:9900"`: host `hub.grid.tf`, explicit
port 9900, empty path, hence no path segments. (Matches the repository's own
unit test `test_connection_info_simple`.) -/
def urlSimple : UrlParts :=
  { host := some "hub.grid.tf", port := some 9900, path := ""
    username := "", password := none }

/-- `url::Url::parse "zdb://username@hub.grid.tf/custom"`: host `hub.grid.tf`,
no explicit port, path `/custom`, username `username`. (Matches the
repository's own unit test `test_connection_info_ns`.) -/
def urlNs : UrlParts :=
  { host := some "hub.grid.tf", port := none, path := "/custom"
    username := "username", password := none }

/-- `url::Url::parse "zdb:///path/to/socket"`: empty authority, so no host;
path `/path/to/socket`. (Matches the repository's own unit test
`test_connection_info_unix`.) -/
def urlUnix : UrlParts :=
  { host := none, port := none, path := "/path/to/socket"
    username := "", password := none }

/-! ## Legacy flist artifact reader (src/meta/types.rs) -/

/-- A serialized file block as read from the wire
(`schema_capnp::block::Reader`): `get_hash()` and `get_key()` return byte
strings of arbitrary length. -/
structure RawBlock where
  hash : List Nat
  key : List Nat
deriving DecidableEq, Repr

deriving instance DecidableEq for Except

/-- The `attributes` union of a serialized inode
(`schema_capnp::inode::attributes::Which`). For a file, `f.get_blocks()`
returns a `capnp::Result`, mirrored by `Except String`; the `_` arm of the
source's match is `unknown`. -/
inductive RawAttrs where
  | dir (key : String)
  | file (blockSize : Nat) (blocks : Except String (List RawBlock))
  | link (target : String)
  | unknown
deriving DecidableEq, Repr

/-- One element of a serialized directory's `contents` list
(`schema_capnp::inode::Reader`), with its decoded scalar getters. -/
structure RawEntry where
  name : String
  size : Nat
  aclkey : String
  modificationTime : Nat
  creationTime : Nat
  attrs : RawAttrs
deriving DecidableEq, Repr

/-- Modelled from the spec: `Inode::at` lives in src/meta/inode.rs, which is
not among the provided sources. The spec says child inodes are "derived
deterministically from their parent" and numbered "deterministically from
(parent_inode, child_index)"; we model the derived inode as exactly that
pair. -/
def Inode.at (ino : Nat) (index : Nat) : Nat × Nat := (ino, index)

/-- `Node` (src/meta/types.rs:9-17). -/
structure Node where
  inode : Nat × Nat
  name : String
  size : Nat
  acl : String
  modification : Nat
  creation : Nat
deriving DecidableEq, Repr

/-- `FileBlock` (src/meta/types.rs:24-28): in the source both fields are
`[u8; 16]`; here byte lists whose length the loader has checked. -/
structure FileBlock where
  hash : List Nat
  key : List Nat
deriving DecidableEq, Repr

/-- `EntryKind` (src/meta/types.rs:160-167) restricted to the variants
`Dir::entries` can produce. (The `Dir(..)` variant is only ever built by
`Dir::from` for the root record, never for a child entry, and is omitted.) -/
inductive EntryKind where
  | unknown
  | subDir (key : String)
  | file (blockSize : Nat) (blocks : List FileBlock)
  | link (target : String)
deriving DecidableEq, Repr

/-- `Entry` (src/meta/types.rs:154-158). -/
structure Entry where
  node : Node
  kind : EntryKind
deriving DecidableEq, Repr

/-- Outcome of running a fallible Rust function that may also panic:
`ok` mirrors `Ok(..)`, `error` an early `return Err(..)`, and `panics` an
aborted process (`.expect(msg)` on a failed conversion). -/
inductive LoadResult (α : Type) where
  | ok (v : α)
  | error (msg : String)
  | panics (msg : String)
deriving DecidableEq, Repr

/-- Whether a `LoadResult` is a normal `Ok` return. -/
def LoadResult.isOk {α : Type} : LoadResult α → Bool
  | .ok _ => true
  | _ => false

/-- Whether a `LoadResult` is an `Err` returned to the caller (as opposed to
a normal return or an aborting panic). -/
def LoadResult.isError {α : Type} : LoadResult α → Bool
  | .error _ => true
  | _ => false

/-- The returned list of an `ok` outcome, `[]` otherwise. -/
def LoadResult.toList : LoadResult (List Entry) → List Entry
  | .ok l => l
  | _ => []

/-- The inner loop of the file arm of `Dir::entries`
(src/meta/types.rs:114-128): for each block, `block.get_hash().try_into()
.expect("block hash is 16 bytes")` — a panic when the hash is not exactly 16
bytes — then the same for the key with message
"block encryption key is 16 bytes". -/
def readBlocks : List RawBlock → LoadResult (List FileBlock)
  | [] => .ok []
  | b :: rest =>
    if b.hash.length ≠ 16 then .panics "block hash is 16 bytes"
    else if b.key.length ≠ 16 then .panics "block encryption key is 16 bytes"
    else
      match readBlocks rest with
      | .ok result => .ok (⟨b.hash, b.key⟩ :: result)
      | .error e => .error e
      | .panics m => .panics m

/-- The `match attrs.which()?` of `Dir::entries` (src/meta/types.rs:103-141):
a Dir attribute yields a `SubDir` holding the key; a File attribute reads its
blocks (propagating a `get_blocks()` error with `return Err(anyhow!(err))`,
panicking on a block of the wrong size); a Link yields its target; anything
else is `Unknown`. -/
def attrKind : RawAttrs → LoadResult EntryKind
  | .dir key => .ok (.subDir key)
  | .file _ (.error err) => .error err
  | .file blockSize (.ok blocks) =>
    match readBlocks blocks with
    | .ok result => .ok (.file blockSize result)
    | .error e => .error e
    | .panics m => .panics m
  | .link target => .ok (.link target)
  | .unknown => .ok .unknown

/-- The loop body of `Dir::entries` (src/meta/types.rs:86-150), with the
counter `x` explicit: for each raw entry, `x += 1`, the node is built with
inode `ino.at(x)`, the kind is computed (possibly aborting the whole load),
an `Unknown` kind `continue`s without pushing, anything else is pushed. -/
def entriesAux (ino : Nat) (x : Nat) : List RawEntry → LoadResult (List Entry)
  | [] => .ok []
  | entry :: rest =>
    let x := x + 1
    let node : Node :=
      { inode := Inode.at ino x
        name := entry.name
        size := entry.size
        acl := entry.aclkey
        modification := entry.modificationTime
        creation := entry.creationTime }
    match attrKind entry.attrs with
    | .error e => .error e
    | .panics m => .panics m
    | .ok kind =>
      if kind = .unknown then entriesAux ino x rest
      else
        match entriesAux ino x rest with
        | .ok entries => .ok (⟨node, kind⟩ :: entries)
        | .error e => .error e
        | .panics m => .panics m

/-- `Dir::entries` (src/meta/types.rs:80-151): the loop starting at `x = 0`
over the record's `contents` list. -/
def Dir.entries (ino : Nat) (contents : List RawEntry) : LoadResult (List Entry) :=
  entriesAux ino 0 contents

/-- Whether a raw attribute is the reserved `Unknown` kind (the `_` arm). -/
def RawAttrs.isUnknownAttr : RawAttrs → Bool
  | .unknown => true
  | _ => false

/-- Both wire fields of a block have exactly 16 bytes. -/
def blockOk (b : RawBlock) : Bool :=
  b.hash.length == 16 && b.key.length == 16

/-- A raw entry whose processing by `Dir::entries` neither panics nor aborts
the load: a file needs a readable block list of well-sized blocks; every other
kind (including `unknown`) always loads. -/
def rawEntryLoadable (r : RawEntry) : Bool :=
  match r.attrs with
  | .file _ (.ok blocks) => blocks.all blockOk
  | .file _ (.error _) => false
  | _ => true

/-- The inode numbers a loaded directory's children should carry, described
independently of the loader: walk the raw contents list with a counter that is
incremented for every raw entry — skipped `Unknown` entries included — and
keep `Inode.at ino counter` exactly for the surviving (non-`Unknown`)
entries. -/
def rawInodes (ino : Nat) (x : Nat) : List RawEntry → List (Nat × Nat)
  | [] => []
  | r :: rest =>
    if r.attrs.isUnknownAttr then rawInodes ino (x + 1) rest
    else Inode.at ino (x + 1) :: rawInodes ino (x + 1) rest

/-! ## ACI loading (src/meta/types.rs:169-218) -/

/-- `Aci` (src/meta/types.rs:169-174): all three fields are `u32`, modelled as
naturals below `2^32`. -/
structure Aci where
  user : Nat
  group : Nat
  mode : Nat
deriving DecidableEq, Repr

/-- A persisted ACI record as decoded from the wire
(`schema_capnp::a_c_i::Reader`): `get_uid()`/`get_gid()` are signed integers
compared against -1; `uname`/`gname` are `some` exactly when
`has_uname()`/`has_gname()` holds. -/
structure AciRecord where
  uid : Int
  gid : Int
  mode : Int
  uname : Option String
  gname : Option String
deriving DecidableEq, Repr

/-- An `as u32` cast of a signed integer: the value modulo `2^32`
(two's-complement truncation). -/
def toU32 (i : Int) : Nat := (i % (2 ^ 32 : Int)).toNat

/-- `Aci::new` (src/meta/types.rs:177-217). The host databases are explicit
inputs: `fromNameUser`/`fromNameGroup` model `nix::unistd::User::from_name` /
`Group::from_name`, with `.error ()` for `Err(_)`, `.ok none` for `Ok(None)`,
and `.ok (some id)` for a resolved entry (`uid_t`/`gid_t` are 32-bit). A uid
(resp. gid) of -1 is replaced: by the id looked up from the stored name when
the name is present and the lookup returns an entry, by 1000 otherwise; the
final fields are the `as u32` casts of the resulting values. -/
def Aci.new (fromNameUser fromNameGroup : String → Except Unit (Option Nat))
    (root : AciRecord) : Aci :=
  let uid := root.uid
  let gid := root.gid
  let mode := root.mode
  let uid :=
    if uid = -1 then
      match root.uname with
      | some uname =>
        match fromNameUser uname with
        | .ok (some user) => (user : Int)
        | _ => 1000
      | none => 1000
    else uid
  let gid :=
    if gid = -1 then
      match root.gname with
      | some gname =>
        match fromNameGroup gname with
        | .ok (some group) => (group : Int)
        | _ => 1000
      | none => 1000
    else gid
  { user := toU32 uid, group := toU32 gid, mode := toU32 mode }

/-! ## docker2fl converter driver (docker2fl/src/main.rs) -/

/-- `docker_image` normalization (docker2fl/src/main.rs:81-84): append
`:latest` when the image name contains no `:` (`String::contains(':')` is a
search over the characters). -/
def dockerImageFull (imageName : String) : String :=
  if imageName.toList.any (fun c => c == ':') then imageName
  else imageName ++ ":latest"

/-- The output artifact filename (docker2fl/src/main.rs:96):
`docker_image.replace([':', '/'], "-") + ".fl"`; `str::replace` with a char
array pattern replaces every occurrence of `:` and of `/` with `-`. -/
def flName (imageName : String) : String :=
  String.mk ((dockerImageFull imageName).toList.map
    (fun c => if c == ':' || c == '/' then '-' else c)) ++ ".fl"

/-- How a run of the converter process ends: a normal `Ok`, an `Err` return,
or a panic (`expect`). -/
inductive RunResult where
  | ok
  | err
  | panicked
deriving DecidableEq, Repr

/-- `run` (docker2fl/src/main.rs:66-115) reduced to the fate of the artifact
file. Each effectful step's outcome is an input:
  * `writerOk` — `fungi::Writer::new(&fl_name, true)`, which creates the
    artifact file exactly when it succeeds, and is followed on error by `?`;
  * `routerOk` — `parse_router(&opts.store)`, followed on error by `?`;
  * `tmpdirOk` — `TempDir::new(..)` under `.expect(..)`, a panic on failure;
  * `convertOk` — `docker_to_fl.convert(store, None)`, whose error triggers
    `tokio::fs::remove_file(fl_name)` (assumed here to succeed) before
    `return res`.
Returns the process outcome paired with whether the artifact file still
exists when the process exits. -/
def docker2flRun (writerOk routerOk tmpdirOk convertOk : Bool) :
    RunResult × Bool :=
  if !writerOk then (.err, false)
  else if !routerOk then (.err, true)
  else if !tmpdirOk then (.panicked, true)
  else if !convertOk then (.err, false)
  else (.ok, true)

/-! ## Helper lemmas about the artifact loader -/

theorem readBlocks_ok_sizes (raws : List RawBlock) :
    ∀ blocks, readBlocks raws = .ok blocks →
    ∀ b ∈ blocks, b.hash.length = 16 ∧ b.key.length = 16 := by
  induction raws with
  | nil =>
    intro blocks h b hb
    simp only [readBlocks, LoadResult.ok.injEq] at h
    subst h
    simp at hb
  | cons r rest ih =>
    intro blocks h b hb
    simp only [readBlocks] at h
    split_ifs at h with h1 h2
    rcases hr : readBlocks rest with result | e | m <;> simp only [hr] at h
    · rw [LoadResult.ok.injEq] at h
      subst h
      rw [List.mem_cons] at hb
      rcases hb with hb | hb
      · subst hb
        exact ⟨(by omega : r.hash.length = 16), (by omega : r.key.length = 16)⟩
      · exact ih result hr b hb
    · exact absurd h (by simp)
    · exact absurd h (by simp)

theorem readBlocks_panics_of_bad (raws : List RawBlock) :
    ∀ b ∈ raws, blockOk b = false → ∃ m, readBlocks raws = .panics m := by
  induction raws with
  | nil => intro b hb; simp at hb
  | cons r rest ih =>
    intro b hb hbad
    simp only [readBlocks]
    by_cases h1 : r.hash.length ≠ 16
    · exact ⟨"block hash is 16 bytes", by rw [if_pos h1]⟩
    · rw [if_neg h1]
      by_cases h2 : r.key.length ≠ 16
      · exact ⟨"block encryption key is 16 bytes", by rw [if_pos h2]⟩
      · rw [if_neg h2]
        rw [List.mem_cons] at hb
        rcases hb with hb | hb
        · subst hb
          simp only [blockOk, Bool.and_eq_false_iff, beq_eq_false_iff_ne] at hbad
          omega
        · obtain ⟨m, hm⟩ := ih b hb hbad
          exact ⟨m, by rw [hm]⟩

theorem readBlocks_isOk (raws : List RawBlock) :
    (readBlocks raws).isOk = raws.all blockOk := by
  induction raws with
  | nil => simp [readBlocks, LoadResult.isOk]
  | cons r rest ih =>
    simp only [readBlocks, List.all_cons]
    by_cases h1 : r.hash.length ≠ 16
    · rw [if_pos h1]
      simp only [LoadResult.isOk, blockOk]
      have : (r.hash.length == 16) = false := by simp; omega
      rw [this, Bool.false_and, Bool.false_and]
    · rw [if_neg h1]
      by_cases h2 : r.key.length ≠ 16
      · rw [if_pos h2]
        simp only [LoadResult.isOk, blockOk]
        have : (r.key.length == 16) = false := by simp; omega
        rw [this, Bool.and_false, Bool.false_and]
      · rw [if_neg h2]
        have hbo : blockOk r = true := by
          simp only [blockOk, Bool.and_eq_true, beq_iff_eq]; omega
        rw [hbo, Bool.true_and, ← ih]
        rcases hr : readBlocks rest with result | e | m <;>
          simp [LoadResult.isOk]

theorem attrKind_isOk (r : RawEntry) :
    (attrKind r.attrs).isOk = rawEntryLoadable r := by
  rcases r with ⟨name, size, aclkey, mt, ct, attrs⟩
  cases attrs with
  | dir key => simp [attrKind, rawEntryLoadable, LoadResult.isOk]
  | file bs blocks =>
    cases blocks with
    | error e => simp [attrKind, rawEntryLoadable, LoadResult.isOk]
    | ok blocks =>
      have hall := readBlocks_isOk blocks
      rcases hr : readBlocks blocks with res | e | m <;> rw [hr] at hall <;>
        simp [attrKind, rawEntryLoadable, hr, LoadResult.isOk, ← hall]
  | link target => simp [attrKind, rawEntryLoadable, LoadResult.isOk]
  | unknown => simp [attrKind, rawEntryLoadable, LoadResult.isOk]

theorem attrKind_unknown (a : RawAttrs) (k : EntryKind)
    (h : attrKind a = .ok k) :
    k = EntryKind.unknown ↔ a.isUnknownAttr = true := by
  cases a with
  | dir key =>
    simp only [attrKind, LoadResult.ok.injEq] at h
    subst h
    simp [RawAttrs.isUnknownAttr]
  | file bs blocks =>
    cases blocks with
    | error e => simp [attrKind] at h
    | ok blocks =>
      simp only [attrKind] at h
      rcases hr : readBlocks blocks with res | e | m <;> simp only [hr] at h
      · rw [LoadResult.ok.injEq] at h
        subst h
        simp [RawAttrs.isUnknownAttr]
      · exact absurd h (by simp)
      · exact absurd h (by simp)
  | link target =>
    simp only [attrKind, LoadResult.ok.injEq] at h
    subst h
    simp [RawAttrs.isUnknownAttr]
  | unknown =>
    simp only [attrKind, LoadResult.ok.injEq] at h
    subst h
    simp [RawAttrs.isUnknownAttr]

theorem attrKind_file_sizes (a : RawAttrs) (bs : Nat) (blocks : List FileBlock)
    (h : attrKind a = .ok (.file bs blocks)) :
    ∀ b ∈ blocks, b.hash.length = 16 ∧ b.key.length = 16 := by
  cases a with
  | dir key => simp [attrKind] at h
  | file bs' raws =>
    cases raws with
    | error e => simp [attrKind] at h
    | ok raws =>
      simp only [attrKind] at h
      rcases hr : readBlocks raws with res | e | m <;> simp only [hr] at h
      · rw [LoadResult.ok.injEq, EntryKind.file.injEq] at h
        obtain ⟨hbs, hres⟩ := h
        subst hres
        exact readBlocks_ok_sizes raws res hr
      · exact absurd h (by simp)
      · exact absurd h (by simp)
  | link target => simp [attrKind] at h
  | unknown => simp [attrKind] at h

theorem entriesAux_isOk (ino : Nat) (contents : List RawEntry) :
    ∀ x, (entriesAux ino x contents).isOk = contents.all rawEntryLoadable := by
  induction contents with
  | nil => intro x; simp [entriesAux, LoadResult.isOk]
  | cons entry rest ih =>
    intro x
    rw [List.all_cons, ← attrKind_isOk entry, ← ih (x + 1)]
    simp only [entriesAux]
    rcases hk : attrKind entry.attrs with k | e | m <;> simp only [hk]
    · by_cases hu : k = EntryKind.unknown
      · rw [if_pos hu]
        simp [LoadResult.isOk]
      · rw [if_neg hu]
        rcases he : entriesAux ino (x + 1) rest with es | e | m <;>
          simp [he, LoadResult.isOk]
    · simp [LoadResult.isOk]
    · simp [LoadResult.isOk]

theorem entriesAux_names (ino : Nat) (contents : List RawEntry) :
    ∀ x l, entriesAux ino x contents = .ok l →
      l.map (fun e => e.node.name) =
        (contents.filter (fun r => ! r.attrs.isUnknownAttr)).map
          (fun r => r.name) := by
  induction contents with
  | nil =>
    intro x l h
    simp only [entriesAux, LoadResult.ok.injEq] at h
    subst h
    simp
  | cons entry rest ih =>
    intro x l h
    simp only [entriesAux] at h
    rcases hk : attrKind entry.attrs with k | e | m <;> simp only [hk] at h
    · by_cases hu : k = EntryKind.unknown
      · rw [if_pos hu] at h
        have hattr : entry.attrs.isUnknownAttr = true :=
          (attrKind_unknown _ _ hk).mp hu
        rw [List.filter_cons_of_neg (by simp [hattr])]
        exact ih (x + 1) l h
      · rw [if_neg hu] at h
        have hattr : entry.attrs.isUnknownAttr = false := by
          rcases hval : entry.attrs.isUnknownAttr
          · rfl
          · exact absurd ((attrKind_unknown _ _ hk).mpr hval) hu
        rcases he : entriesAux ino (x + 1) rest with es | e | m <;>
          simp only [he] at h
        · rw [LoadResult.ok.injEq] at h
          subst h
          rw [List.filter_cons_of_pos (by simp [hattr])]
          simp only [List.map_cons, ih (x + 1) es he]
        · exact absurd h (by simp)
        · exact absurd h (by simp)
    · exact absurd h (by simp)
    · exact absurd h (by simp)

theorem entriesAux_kinds (ino : Nat) (contents : List RawEntry) :
    ∀ x l, entriesAux ino x contents = .ok l →
      ∀ e ∈ l, e.kind ≠ EntryKind.unknown := by
  induction contents with
  | nil =>
    intro x l h e he
    simp only [entriesAux, LoadResult.ok.injEq] at h
    subst h
    simp at he
  | cons entry rest ih =>
    intro x l h e he
    simp only [entriesAux] at h
    rcases hk : attrKind entry.attrs with k | er | m <;> simp only [hk] at h
    · by_cases hu : k = EntryKind.unknown
      · rw [if_pos hu] at h
        exact ih (x + 1) l h e he
      · rw [if_neg hu] at h
        rcases hr : entriesAux ino (x + 1) rest with es | er | m <;>
          simp only [hr] at h
        · rw [LoadResult.ok.injEq] at h
          subst h
          rw [List.mem_cons] at he
          rcases he with he | he
          · subst he
            exact hu
          · exact ih (x + 1) es hr e he
        · exact absurd h (by simp)
        · exact absurd h (by simp)
    · exact absurd h (by simp)
    · exact absurd h (by simp)

theorem entriesAux_inodes (ino : Nat) (contents : List RawEntry) :
    ∀ x l, entriesAux ino x contents = .ok l →
      l.map (fun e => e.node.inode) = rawInodes ino x contents := by
  induction contents with
  | nil =>
    intro x l h
    simp only [entriesAux, LoadResult.ok.injEq] at h
    subst h
    simp [rawInodes]
  | cons entry rest ih =>
    intro x l h
    simp only [entriesAux] at h
    rcases hk : attrKind entry.attrs with k | er | m <;> simp only [hk] at h
    · by_cases hu : k = EntryKind.unknown
      · rw [if_pos hu] at h
        have hattr : entry.attrs.isUnknownAttr = true :=
          (attrKind_unknown _ _ hk).mp hu
        rw [rawInodes, if_pos hattr]
        exact ih (x + 1) l h
      · rw [if_neg hu] at h
        have hattr : entry.attrs.isUnknownAttr = false := by
          rcases hval : entry.attrs.isUnknownAttr
          · rfl
          · exact absurd ((attrKind_unknown _ _ hk).mpr hval) hu
        rcases hr : entriesAux ino (x + 1) rest with es | er | m <;>
          simp only [hr] at h
        · rw [LoadResult.ok.injEq] at h
          subst h
          rw [rawInodes, if_neg (by simp [hattr])]
          simp only [List.map_cons, ih (x + 1) es hr]
        · exact absurd h (by simp)
        · exact absurd h (by simp)
    · exact absurd h (by simp)
    · exact absurd h (by simp)

theorem entriesAux_block_sizes (ino : Nat) (contents : List RawEntry) :
    ∀ x l, entriesAux ino x contents = .ok l →
      ∀ e ∈ l, ∀ bs blocks, e.kind = EntryKind.file bs blocks →
        ∀ b ∈ blocks, b.hash.length = 16 ∧ b.key.length = 16 := by
  induction contents with
  | nil =>
    intro x l h e he
    simp only [entriesAux, LoadResult.ok.injEq] at h
    subst h
    simp at he
  | cons entry rest ih =>
    intro x l h e he bs blocks hkind b hb
    simp only [entriesAux] at h
    rcases hk : attrKind entry.attrs with k | er | m <;> simp only [hk] at h
    · by_cases hu : k = EntryKind.unknown
      · rw [if_pos hu] at h
        exact ih (x + 1) l h e he bs blocks hkind b hb
      · rw [if_neg hu] at h
        rcases hr : entriesAux ino (x + 1) rest with es | er | m <;>
          simp only [hr] at h
        · rw [LoadResult.ok.injEq] at h
          subst h
          rw [List.mem_cons] at he
          rcases he with he | he
          · subst he
            dsimp only at hkind
            rw [hkind] at hk
            exact attrKind_file_sizes entry.attrs bs blocks hk b hb
          · exact ih (x + 1) es hr e he bs blocks hkind b hb
        · exact absurd h (by simp)
        · exact absurd h (by simp)
    · exact absurd h (by simp)
    · exact absurd h (by simp)

/-! ## Claim theorems -/

/-- C1: for every key, the zdb store's `get` returns the stored blob on
success; it fails with `KeyNotFound` when the backend holds no value for the
key, with `InvalidBlob` when the backend returned an empty body, and with a
transport error otherwise; in particular a successful `get` never returns an
empty byte vector. -/
theorem c1_zdb_get (conn : Except String Unit)
    (fetch : Except String (Option (List Nat))) :
    (∀ v, ZdbStore.get conn fetch = .ok v ↔
      conn = .ok () ∧ fetch = .ok (some v) ∧ v ≠ []) ∧
    (ZdbStore.get conn fetch = .error .KeyNotFound ↔
      conn = .ok () ∧ fetch = .ok none) ∧
    (ZdbStore.get conn fetch = .error .InvalidBlob ↔
      conn = .ok () ∧ fetch = .ok (some [])) ∧
    ((∃ m, ZdbStore.get conn fetch = .error (.Transport m)) ↔
      ((∃ e, conn = .error e) ∨ (∃ e, fetch = .error e))) ∧
    (∀ v, ZdbStore.get conn fetch = .ok v → v ≠ []) := by
  rcases conn with e | u
  · simp [ZdbStore.get]
  · cases u
    rcases fetch with e | o
    · simp [ZdbStore.get]
    · rcases o with _ | v
      · simp [ZdbStore.get]
      · by_cases hv : v = []
        · subst hv
          simp [ZdbStore.get]
        · have hemp : v.isEmpty = false := by
            cases v with
            | nil => exact absurd rfl hv
            | cons a t => rfl
          simp only [ZdbStore.get, hemp, Bool.false_eq_true, if_false]
          refine ⟨?_, by simp, by simp [hv], by simp, ?_⟩
          · intro w
            constructor
            · intro h
              rw [Except.ok.injEq] at h
              subst h
              exact ⟨trivial, rfl, hv⟩
            · rintro ⟨-, h, -⟩
              rw [Except.ok.injEq, Option.some.injEq] at h
              subst h
              rfl
          · intro w h
            rw [Except.ok.injEq] at h
            exact h ▸ hv

/-- Witness for C1 at concrete backend outcomes. -/
theorem c1_zdb_get_witness :
    ZdbStore.get (.ok ()) (.ok (some [1, 2])) = .ok [1, 2] ∧
    ZdbStore.get (.ok ()) (.ok none) = .error .KeyNotFound ∧
    ZdbStore.get (.ok ()) (.ok (some [])) = .error .InvalidBlob :=
  ⟨((c1_zdb_get (.ok ()) (.ok (some [1, 2]))).1 [1, 2]).mpr
      ⟨rfl, rfl, by decide⟩,
   (c1_zdb_get (.ok ()) (.ok none)).2.1.mpr ⟨rfl, rfl⟩,
   (c1_zdb_get (.ok ()) (.ok (some []))).2.2.1.mpr ⟨rfl, rfl⟩⟩

/-- C2: loading a persisted ACI record substitutes a stored uid (resp. gid)
of -1: by the id resolved from the stored textual name via the host user
(resp. group) database when the name is present and the lookup succeeds, and
by 1000 when the name is absent or the lookup fails; stored ids other than -1
are kept unchanged (as their 32-bit truncation, the identity on every id
representable in the `u32` fields of `Aci`). -/
theorem c2_aci_new (userDb groupDb : String → Except Unit (Option Nat))
    (root : AciRecord) :
    (root.uid = -1 → ∀ n u, root.uname = some n → userDb n = .ok (some u) →
      (Aci.new userDb groupDb root).user = toU32 u ∧
      (u < 2 ^ 32 → (Aci.new userDb groupDb root).user = u)) ∧
    (root.uid = -1 → root.uname = none →
      (Aci.new userDb groupDb root).user = 1000) ∧
    (root.uid = -1 → ∀ n, root.uname = some n →
      (userDb n = .error () ∨ userDb n = .ok none) →
      (Aci.new userDb groupDb root).user = 1000) ∧
    (root.uid ≠ -1 →
      (Aci.new userDb groupDb root).user = toU32 root.uid ∧
      (0 ≤ root.uid → root.uid < 2 ^ 32 →
        (Aci.new userDb groupDb root).user = root.uid.toNat)) ∧
    (root.gid = -1 → ∀ n g, root.gname = some n → groupDb n = .ok (some g) →
      (Aci.new userDb groupDb root).group = toU32 g ∧
      (g < 2 ^ 32 → (Aci.new userDb groupDb root).group = g)) ∧
    (root.gid = -1 → root.gname = none →
      (Aci.new userDb groupDb root).group = 1000) ∧
    (root.gid = -1 → ∀ n, root.gname = some n →
      (groupDb n = .error () ∨ groupDb n = .ok none) →
      (Aci.new userDb groupDb root).group = 1000) ∧
    (root.gid ≠ -1 →
      (Aci.new userDb groupDb root).group = toU32 root.gid ∧
      (0 ≤ root.gid → root.gid < 2 ^ 32 →
        (Aci.new userDb groupDb root).group = root.gid.toNat)) := by
  refine ⟨?_, ?_, ?_, ?_, ?_, ?_, ?_, ?_⟩
  · intro h n u hn hu
    constructor
    · simp [Aci.new, h, hn, hu]
    · intro hlt
      simp only [Aci.new, h, hn, hu, if_pos]
      simp [toU32]
      omega
  · intro h hn
    simp [Aci.new, h, hn]
    decide
  · intro h n hn hu
    rcases hu with hu | hu <;> simp [Aci.new, h, hn, hu] <;> decide
  · intro h
    refine ⟨by simp [Aci.new, h], fun h0 hlt => ?_⟩
    simp only [Aci.new, h, if_neg]
    simp [toU32]
    omega
  · intro h n g hn hg
    constructor
    · simp [Aci.new, h, hn, hg]
    · intro hlt
      simp only [Aci.new, h, hn, hg, if_pos]
      simp [toU32]
      omega
  · intro h hn
    simp [Aci.new, h, hn]
    decide
  · intro h n hn hg
    rcases hg with hg | hg <;> simp [Aci.new, h, hn, hg] <;> decide
  · intro h
    refine ⟨by simp [Aci.new, h], fun h0 hlt => ?_⟩
    simp only [Aci.new, h, if_neg]
    simp [toU32]
    omega

/-- Witness for C2: a record with uid = -1 resolved through the user database
and gid = -1 whose group lookup errors out. -/
theorem c2_aci_new_witness :
    (Aci.new (fun _ => .ok (some 500)) (fun _ => .error ())
      ⟨-1, -1, 420, some "bob", some "staff"⟩).user = 500 ∧
    (Aci.new (fun _ => .ok (some 500)) (fun _ => .error ())
      ⟨-1, -1, 420, some "bob", some "staff"⟩).group = 1000 := by
  have h := c2_aci_new (fun _ => .ok (some 500)) (fun _ => .error ())
    ⟨-1, -1, 420, some "bob", some "staff"⟩
  exact ⟨(h.1 rfl "bob" 500 rfl rfl).2 (by norm_num),
         h.2.2.2.2.2.2.1 rfl "staff" rfl (Or.inl rfl)⟩

/-- C3: entries of the reserved `Unknown` kind are skipped on load — an
unknown entry always loads (never makes the load fail, which succeeds exactly
when every raw entry is loadable), no loaded entry has the `Unknown` kind,
and the loaded list is exactly as long as the list of non-`Unknown` raw
entries. -/
theorem c3_unknown_skipped (ino : Nat) (contents : List RawEntry) :
    (∀ r : RawEntry, r.attrs = RawAttrs.unknown → rawEntryLoadable r = true) ∧
    ((Dir.entries ino contents).isOk = contents.all rawEntryLoadable) ∧
    (∀ l, Dir.entries ino contents = .ok l →
      (∀ e ∈ l, e.kind ≠ EntryKind.unknown) ∧
      l.length =
        (contents.filter (fun r => ! r.attrs.isUnknownAttr)).length) := by
  refine ⟨?_, entriesAux_isOk ino contents 0, ?_⟩
  · intro r hr
    simp [rawEntryLoadable, hr]
  · intro l h
    refine ⟨entriesAux_kinds ino contents 0 l h, ?_⟩
    have hn := entriesAux_names ino contents 0 l h
    calc l.length = (l.map (fun e => e.node.name)).length := by
          rw [List.length_map]
    _ = _ := by rw [hn, List.length_map]

/-- Witness for C3: a record holding one `Unknown` entry followed by a link
loads successfully into a single-element list. -/
theorem c3_unknown_skipped_witness :
    [(⟨⟨(1, 2), "a", 0, "", 0, 0⟩, EntryKind.link "t"⟩ : Entry)].length =
      (([⟨"u", 0, "", 0, 0, RawAttrs.unknown⟩,
         ⟨"a", 0, "", 0, 0, RawAttrs.link "t"⟩] : List RawEntry).filter
          (fun r => ! r.attrs.isUnknownAttr)).length :=
  ((c3_unknown_skipped 1
      [⟨"u", 0, "", 0, 0, RawAttrs.unknown⟩,
       ⟨"a", 0, "", 0, 0, RawAttrs.link "t"⟩]).2.2
    [⟨⟨(1, 2), "a", 0, "", 0, 0⟩, EntryKind.link "t"⟩] (by decide)).2

/-- C4 counterexample: a directory record with a file block whose hash field
has 15 bytes makes the reader panic with "block hash is 16 bytes" (the
`.expect` aborts the process); the load is not an `Err` returned to the
caller, contradicting the claim that the reader rejects by returning an
error and does not crash. -/
theorem c4_bad_block_counterexample :
    Dir.entries 1 [⟨"f", 0, "", 0, 0,
        RawAttrs.file 4096 (.ok [⟨List.replicate 15 0, List.replicate 16 0⟩])⟩]
      = .panics "block hash is 16 bytes" ∧
    (Dir.entries 1 [⟨"f", 0, "", 0, 0,
        RawAttrs.file 4096 (.ok [⟨List.replicate 15 0, List.replicate 16 0⟩])⟩]).isError
      = false ∧
    (Dir.entries 1 [⟨"f", 0, "", 0, 0,
        RawAttrs.file 4096 (.ok [⟨List.replicate 15 0, List.replicate 16 0⟩])⟩]).isOk
      = false := by
  refine ⟨by decide, by decide, by decide⟩

/-- C4 amended: when a file block's hash or key field is not exactly 16
bytes, the reader does not accept the block — a load never returns `Ok` on a
record containing such a block, and blocks of a successfully loaded file
always carry 16-byte hash and key fields — but it rejects the artifact by
panicking (aborting the process through `expect`), not by returning an error
to the caller. -/
theorem c4_bad_block_amended (ino : Nat) (contents : List RawEntry) :
    (∀ l, Dir.entries ino contents = .ok l →
      ∀ e ∈ l, ∀ bs blocks, e.kind = EntryKind.file bs blocks →
        ∀ b ∈ blocks, b.hash.length = 16 ∧ b.key.length = 16) ∧
    (∀ r ∈ contents, ∀ bs raws, r.attrs = RawAttrs.file bs (.ok raws) →
      ∀ b ∈ raws, blockOk b = false →
        (Dir.entries ino contents).isOk = false) ∧
    (∀ b raws, b ∈ raws → blockOk b = false →
      ∃ m, readBlocks raws = .panics m) := by
  refine ⟨fun l h => entriesAux_block_sizes ino contents 0 l h, ?_, ?_⟩
  · intro r hr bs raws hattr b hb hbad
    rw [Dir.entries, entriesAux_isOk]
    have hload : rawEntryLoadable r = false := by
      have hall : raws.all blockOk = false := by
        cases hv : raws.all blockOk
        · rfl
        · have := List.all_eq_true.mp hv b hb
          rw [hbad] at this
          exact absurd this (by simp)
      simp [rawEntryLoadable, hattr, hall]
    cases hv : contents.all rawEntryLoadable
    · rfl
    · have := List.all_eq_true.mp hv r hr
      rw [hload] at this
      exact absurd this (by simp)
  · intro b raws hb hbad
    exact readBlocks_panics_of_bad raws b hb hbad

/-- Witness for C4 amended: a well-formed single-file record loads with its
16-byte block fields intact. -/
theorem c4_bad_block_amended_witness :
    (⟨List.replicate 16 7, List.replicate 16 9⟩ : FileBlock).hash.length = 16 ∧
    (⟨List.replicate 16 7, List.replicate 16 9⟩ : FileBlock).key.length = 16 :=
  (c4_bad_block_amended 1 [⟨"f", 0, "", 0, 0,
      RawAttrs.file 4096 (.ok [⟨List.replicate 16 7, List.replicate 16 9⟩])⟩]).1
    [⟨⟨(1, 1), "f", 0, "", 0, 0⟩,
      EntryKind.file 4096 [⟨List.replicate 16 7, List.replicate 16 9⟩]⟩]
    (by decide)
    ⟨⟨(1, 1), "f", 0, "", 0, 0⟩,
      EntryKind.file 4096 [⟨List.replicate 16 7, List.replicate 16 9⟩]⟩
    (by decide) 4096 [⟨List.replicate 16 7, List.replicate 16 9⟩] (by decide)
    ⟨List.replicate 16 7, List.replicate 16 9⟩ (by decide)

/-- C5 counterexample: a serialized record whose contents hold two entries
both named "a" loads successfully into a child list whose name list is not
duplicate-free — the loader performs no deduplication. -/
theorem c5_duplicate_names_counterexample :
    (Dir.entries 1 [⟨"a", 0, "", 0, 0, RawAttrs.link "t1"⟩,
                    ⟨"a", 0, "", 0, 0, RawAttrs.link "t2"⟩]).isOk = true ∧
    ¬ ((Dir.entries 1 [⟨"a", 0, "", 0, 0, RawAttrs.link "t1"⟩,
                       ⟨"a", 0, "", 0, 0, RawAttrs.link "t2"⟩]).toList.map
        (fun e => e.node.name)).Nodup := by
  exact ⟨by decide, by decide⟩

/-- C5 amended: the loader copies entry names verbatim — a successful load's
child names are exactly the names of the record's non-`Unknown` raw entries
in order — so the loaded child list is free of duplicate names exactly when
the serialized record's non-`Unknown` entry names are; nothing enforces this
for records that already carry duplicates. -/
theorem c5_names_amended (ino : Nat) (contents : List RawEntry) :
    ∀ l, Dir.entries ino contents = .ok l →
      (l.map (fun e => e.node.name) =
        (contents.filter (fun r => ! r.attrs.isUnknownAttr)).map
          (fun r => r.name)) ∧
      ((((contents.filter (fun r => ! r.attrs.isUnknownAttr)).map
          (fun r => r.name)).Nodup) ↔
        (l.map (fun e => e.node.name)).Nodup) := by
  intro l h
  have hn := entriesAux_names ino contents 0 l h
  exact ⟨hn, by rw [hn]⟩

/-- Witness for C5 amended at a one-entry record. -/
theorem c5_names_amended_witness :
    [(⟨⟨(3, 1), "a", 0, "", 0, 0⟩, EntryKind.link "t"⟩ : Entry)].map
        (fun e => e.node.name) =
      (([⟨"a", 0, "", 0, 0, RawAttrs.link "t"⟩] : List RawEntry).filter
        (fun r => ! r.attrs.isUnknownAttr)).map (fun r => r.name) :=
  (c5_names_amended 3 [⟨"a", 0, "", 0, 0, RawAttrs.link "t"⟩]
    [⟨⟨(3, 1), "a", 0, "", 0, 0⟩, EntryKind.link "t"⟩] (by decide)).1

/-- C6: on acquisition of a zdb connection, a namespace-select command is
issued if and only if a namespace was parsed from the store URL and it is not
the literal string "default"; the command carries that namespace as argument,
followed by the namespace password as an additional argument exactly when a
password is present; otherwise no command is issued. -/
theorem c6_on_acquire (w : WithNamespace) :
    (w.on_acquire ≠ none ↔
      ∃ ns, w.«namespace» = some ns ∧ ns ≠ "default") ∧
    (∀ ns, w.«namespace» = some ns → ns ≠ "default" →
      w.on_acquire = some ⟨["SELECT", ns] ++
        (match w.password with | some p => [p] | none => [])⟩) := by
  obtain ⟨ns?, pw⟩ := w
  constructor
  · cases ns? with
    | none => simp [WithNamespace.on_acquire]
    | some ns =>
      by_cases hd : ns = "default"
      · subst hd
        simp [WithNamespace.on_acquire]
      · cases pw <;> simp [WithNamespace.on_acquire, hd, cmd, Cmd.arg]
  · intro ns hns hd
    simp only at hns
    subst hns
    cases pw <;> simp [WithNamespace.on_acquire, hd, cmd, Cmd.arg]

/-- Witness for C6: namespace "custom" with a password present issues
SELECT custom pw. -/
theorem c6_on_acquire_witness :
    WithNamespace.on_acquire ⟨some "custom", some "pw"⟩ =
      some ⟨["SELECT", "custom", "pw"]⟩ :=
  (c6_on_acquire ⟨some "custom", some "pw"⟩).2 "custom" rfl (by decide)

/-- C7: parsing the three zdb store URLs of the claim yields: TCP
hub.grid.tf:9900 with no namespace; TCP hub.grid.tf with default port 9900,
namespace "custom" and username "username"; a Unix-socket address at
/path/to/socket with no namespace. -/
theorem c7_connection_info :
    get_connection_info urlSimple =
      (⟨.Tcp "hub.grid.tf" 9900, ⟨0, none, none⟩⟩, none) ∧
    get_connection_info urlNs =
      (⟨.Tcp "hub.grid.tf" 9900, ⟨0, some "username", none⟩⟩, some "custom") ∧
    get_connection_info urlUnix =
      (⟨.Unix "/path/to/socket", ⟨0, none, none⟩⟩, none) := by
  refine ⟨by decide, by decide, by decide⟩

/-- C8: an image name without ':' gets ":latest" appended; the artifact
filename is the tagged name with every ':' and '/' replaced by '-', suffixed
".fl"; "ubuntu" yields "ubuntu-latest.fl". -/
theorem c8_fl_name (name : String) :
    (name.toList.any (fun c => c == ':') = false →
      dockerImageFull name = name ++ ":latest") ∧
    (name.toList.any (fun c => c == ':') = true →
      dockerImageFull name = name) ∧
    flName name = String.mk ((dockerImageFull name).toList.map
      (fun c => if c == ':' || c == '/' then '-' else c)) ++ ".fl" ∧
    flName "ubuntu" = "ubuntu-latest.fl" := by
  refine ⟨?_, ?_, rfl, by decide⟩
  · intro h
    unfold dockerImageFull
    rw [h]
    simp
  · intro h
    unfold dockerImageFull
    rw [h]
    simp

/-- Witness for C8 at the image name "ubuntu". -/
theorem c8_fl_name_witness :
    dockerImageFull "ubuntu" = "ubuntu" ++ ":latest" :=
  (c8_fl_name "ubuntu").1 (by decide)

/-- C9 counterexample: when `parse_router` fails — a step that runs after
`fungi::Writer::new` has created the artifact file — the converter returns
the error while the artifact file still exists at exit: a failure after
artifact creation that does not delete the artifact. -/
theorem c9_leftover_artifact_counterexample :
    docker2flRun true false true true = (RunResult.err, true) := by decide

/-- C9 amended: the artifact file is deleted exactly when the conversion step
itself fails; it is absent at exit iff the writer never created it or the
conversion ran and failed. Failures between artifact creation and conversion
(store-URL parsing failure, temp-dir creation panic) leave the artifact file
on disk. -/
theorem c9_cleanup_amended :
    ∀ writerOk routerOk tmpdirOk convertOk : Bool,
      (docker2flRun writerOk routerOk tmpdirOk convertOk).2 = false ↔
        (writerOk = false ∨
          (writerOk = true ∧ routerOk = true ∧ tmpdirOk = true ∧
            convertOk = false)) := by
  decide

/-- C10: the child-index counter of `Dir::entries` is incremented for every
raw entry, skipped `Unknown` entries included, so each surviving entry's
inode is derived from its 1-based position in the raw contents list, and the
returned inodes need not be consecutive when `Unknown` entries were skipped
(the concrete record below loads to inodes at raw indices 1 and 3). -/
theorem c10_inode_counter (ino : Nat) (contents : List RawEntry) :
    (∀ l, Dir.entries ino contents = .ok l →
      l.map (fun e => e.node.inode) = rawInodes ino 0 contents) ∧
    ((Dir.entries 5 [⟨"a", 0, "", 0, 0, RawAttrs.link "t"⟩,
                     ⟨"u", 0, "", 0, 0, RawAttrs.unknown⟩,
                     ⟨"b", 0, "", 0, 0, RawAttrs.dir "k"⟩]).toList.map
        (fun e => e.node.inode) = [(5, 1), (5, 3)]) := by
  exact ⟨fun l h => entriesAux_inodes ino contents 0 l h, by decide⟩

/-- Witness for C10 at a one-entry record. -/
theorem c10_inode_counter_witness :
    [(⟨⟨(7, 1), "a", 0, "", 0, 0⟩, EntryKind.link "t"⟩ : Entry)].map
        (fun e => e.node.inode) =
      rawInodes 7 0 [⟨"a", 0, "", 0, 0, RawAttrs.link "t"⟩] :=
  (c10_inode_counter 7 [⟨"a", 0, "", 0, 0, RawAttrs.link "t"⟩]).1
    [⟨⟨(7, 1), "a", 0, "", 0, 0⟩, EntryKind.link "t"⟩] (by decide)

end Rfs
